import Mathlib

/-!
Verification of the audio-assembly pipeline in `dutch_audio_generator.py`.

The Python source is shallowly embedded: machine arithmetic is modelled with
`ℤ`/`ℚ` (the float constants 1.5 and 2.5 are exactly representable, and every
product `3 * D` appearing here is far below 2^53, so float evaluation in the
source is exact); `time.time()` values are rationals; fallible code returns
`Option`/`Except`; `sys.exit(1)` and uncaught exceptions are `Except.error`
values that propagate.  The remote Gemini call is the model's environment: an
oracle giving the outcome of each attempt (streamed response, block, raised
exception with its classification substrings).
-/

namespace NLTTS

/-- Configuration constants (source lines 15-19). -/
def PAUSE_MULTIPLIER_REPEAT : ℚ := 3 / 2

/-- Configuration constant 2.5 (source line 16). -/
def PAUSE_MULTIPLIER_NEXT : ℚ := 5 / 2

/-- Configuration constant (source line 17). -/
def API_CALLS_PER_MINUTE : ℕ := 10

/-- Configuration constant (source line 18). -/
def MAX_RETRIES : ℕ := 10

/-- Configuration constant (source line 19). -/
def RETRY_DELAY_SECONDS : ℕ := 20

/-- Python `int(x)` applied to a real value: truncation toward zero
(used at source lines 186 and 194 on `nl_duration_ms * multiplier`). -/
def pyTrunc (q : ℚ) : ℤ := if q < 0 then -(⌊-q⌋) else ⌊q⌋

/-- Python `round(x)`: round half to even, as used by pydub `AudioSegment.__len__`. -/
def pyRound (q : ℚ) : ℤ :=
  if q - ⌊q⌋ < 1 / 2 then ⌊q⌋
  else if 1 / 2 < q - ⌊q⌋ then ⌊q⌋ + 1
  else if ⌊q⌋ % 2 = 0 then ⌊q⌋ else ⌊q⌋ + 1

/-- Python `round(a / b)` for integers with `b > 0`, computed over ℤ:
floor-divide and round a half remainder to the even quotient. -/
def rdivPos (a b : ℤ) : ℤ :=
  let q := Int.fdiv a b
  let r := a - q * b
  if 2 * r < b then q else if b < 2 * r then q + 1 else if q % 2 = 0 then q else q + 1

/-- Python `round(a / b)` for integers, any sign of `b` (`0` when `b = 0`,
where Python would raise `ZeroDivisionError`). -/
def roundHE (a b : ℤ) : ℤ :=
  if b = 0 then 0 else if b < 0 then rdivPos (-a) (-b) else rdivPos a b

/-- `int(nl_duration_ms * PAUSE_MULTIPLIER_REPEAT)` (source line 186), computed
exactly over ℤ: the float product `D * 1.5` is exactly `3 * D / 2` and `int()`
truncates toward zero. -/
def pauseRepeatMs (D : ℤ) : ℤ := Int.tdiv (3 * D) 2

/-- `int(nl_duration_ms * PAUSE_MULTIPLIER_NEXT)` (source line 194), computed
exactly over ℤ: the float product `D * 2.5` is exactly `5 * D / 2`. -/
def pauseNextMs (D : ℤ) : ℤ := Int.tdiv (5 * D) 2

/-- Does the character list `h` start with `n`? -/
def chStarts : List Char → List Char → Bool
  | [], _ => true
  | _ :: _, [] => false
  | a :: as, b :: bs => a == b && chStarts as bs

/-- Does the character list `h` contain `n` as a contiguous run?  Models the
Python substring test `n in h`. -/
def chHas (n : List Char) : List Char → Bool
  | [] => chStarts n []
  | c :: t => chStarts n (c :: t) || chHas n t

/-- Python `needle in hay` on strings (source line 116). -/
def pyIn (needle hay : String) : Bool := chHas needle.toList hay.toList

/-- Python `s.split(sep)` for a one-character separator: split at every
occurrence, keeping empty fields. -/
def splitOnChar (sep : Char) : List Char → List (List Char)
  | [] => [[]]
  | c :: rest =>
    if c = sep then [] :: splitOnChar sep rest
    else
      match splitOnChar sep rest with
      | [] => [[c]]
      | h :: t => (c :: h) :: t

/-- Characters stripped from both ends, as Python `str.strip()` does. -/
def stripChars (l : List Char) : List Char :=
  ((l.dropWhile Char.isWhitespace).reverse.dropWhile Char.isWhitespace).reverse

/-- Python `s.strip()`. -/
def pyStrip (s : String) : String := (stripChars s.toList).asString

/-- Accumulate decimal digits; `none` on any non-digit character. -/
def natOfDigits (acc : ℕ) : List Char → Option ℕ
  | [] => some acc
  | c :: rest => if c.isDigit then natOfDigits (acc * 10 + (c.toNat - 48)) rest else none

/-- Python `int(s)` on a character list: strip whitespace, optional sign,
nonempty run of decimal digits; `none` models the raised `ValueError`. -/
def pyIntOfChars (l : List Char) : Option ℤ :=
  match stripChars l with
  | [] => none
  | c :: rest =>
    if c = '-' then
      if rest = [] then none else (natOfDigits 0 rest).map (fun n => -(n : ℤ))
    else if c = '+' then
      if rest = [] then none else (natOfDigits 0 rest).map (fun n => (n : ℤ))
    else (natOfDigits 0 (c :: rest)).map (fun n => (n : ℤ))

/-- Python `int(s)` on a string (source line 117). -/
def pyIntStr (s : String) : Option ℤ := pyIntOfChars s.toList

/-- The `rate` computed by `create_audio_segment` (source lines 114-117):
start from the default 24000; for each `;`-separated parameter of the mime
type containing `rate=`, replace it by `int()` of the text after the last
`=`.  `none` models the uncaught `ValueError` from a malformed value. -/
def computeRate (mimeType : String) : Option ℤ :=
  (splitOnChar ';' mimeType.toList).foldlM
    (fun rate param =>
      if chHas "rate=".toList param then pyIntOfChars ((splitOnChar '=' param).getLastD [])
      else some rate)
    24000

/-- A pydub `AudioSegment` built from raw data (source lines 119-124). -/
structure Segment where
  sampleWidth : ℤ
  frameRate : ℤ
  channels : ℤ
  data : List ℕ
deriving DecidableEq

/-- `create_audio_segment(audio_data, mime_type)` (source lines 111-124):
sample width fixed at 2 bytes, mono, frame rate from `computeRate`;
`none` models the `ValueError` escaping the function. -/
def createAudioSegment (audioData : List ℕ) (mimeType : String) : Option Segment :=
  (computeRate mimeType).map (fun r => ⟨2, r, 1, audioData⟩)

/-- pydub `len(segment)` in milliseconds: `round(1000 * (frame_count / frame_rate))`
with `frame_count = len(data) // (sample_width * channels)` (floor division);
Python `round` is half-even, computed here by `roundHE`. -/
def durMs (s : Segment) : ℤ :=
  roundHE (1000 * Int.fdiv (s.data.length : ℤ) (s.sampleWidth * s.channels)) s.frameRate

/-! ### Retry loop of `generate_tts_audio` (source lines 48-109) -/

/-- Outcome of one streamed API attempt, as seen by the retry loop:
`ok` = the stream completed and accumulated `data` and `mime` (an empty `data`
makes line 84 raise `ValueError`, a transient error); `blocked` = an explicit
safety block (lines 71-74, `sys.exit(1)`); `exn` = an exception whose string
does/does not contain `RESOURCE_EXHAUSTED` resp. `API_KEY_INVALID`. -/
inductive Attempt where
  | ok (data : List ℕ) (mime : Option String)
  | blocked
  | exn (quota : Bool) (keyInvalid : Bool)
deriving DecidableEq

/-- Result of the whole `generate_tts_audio` call: a successful payload,
exhaustion of all retries (`return None, None`), or process termination. -/
inductive RetryOut where
  | success (data : List ℕ) (mime : Option String)
  | exhausted
  | fatalExit (code : ℕ)
deriving DecidableEq

/-- An attempt outcome the source classifies as transient (retried). -/
def isTransient : Attempt → Bool
  | .ok d _ => decide (d = [])
  | .blocked => false
  | .exn q k => !q && !k

/-- An attempt outcome the source classifies as fatal (`sys.exit(1)`). -/
def isFatalAttempt : Attempt → Bool
  | .ok _ _ => false
  | .blocked => true
  | .exn q k => q || k

/-- The retry loop (source lines 48-109).  `i` is the 0-based value of
`attempt`, `r` the number of loop iterations left (`generateTTS` starts it at
`MAX_RETRIES`).  Returns the outcome together with the list of backoff waits
performed, in order (line 103: `delay = RETRY_DELAY_SECONDS * (attempt + 1)`,
slept only when `attempt < MAX_RETRIES - 1`). -/
def loopAux (attempts : ℕ → Attempt) : ℕ → ℕ → RetryOut × List ℕ
  | _, 0 => (.exhausted, [])
  | i, r + 1 =>
    match attempts i with
    | .blocked => (.fatalExit 1, [])
    | .ok d m =>
      if d = [] then
        if i < MAX_RETRIES - 1 then
          ((loopAux attempts (i + 1) r).1,
            RETRY_DELAY_SECONDS * (i + 1) :: (loopAux attempts (i + 1) r).2)
        else loopAux attempts (i + 1) r
      else (.success d m, [])
    | .exn q k =>
      if q then (.fatalExit 1, [])
      else if k then (.fatalExit 1, [])
      else
        if i < MAX_RETRIES - 1 then
          ((loopAux attempts (i + 1) r).1,
            RETRY_DELAY_SECONDS * (i + 1) :: (loopAux attempts (i + 1) r).2)
        else loopAux attempts (i + 1) r

/-- `generate_tts_audio` after rate limiting: run the retry loop from
attempt 0 with `MAX_RETRIES` iterations available. -/
def generateTTS (attempts : ℕ → Attempt) : RetryOut × List ℕ :=
  loopAux attempts 0 MAX_RETRIES

/-! ### Rate limiter (source lines 27-37) -/

/-- One `reserve_slot` pass (source lines 27-37): prune timestamps 60s or
older, wait if the pruned window is at the ceiling, append the post-wait
time.  Returns (new window, admission timestamp, wait performed). -/
def rlStep (N : ℕ) (st : List ℚ) (now : ℚ) : List ℚ × ℚ × ℚ :=
  let pruned := st.filter (fun t => decide (now - t < 60))
  if N ≤ pruned.length then
    let oldest := pruned.headD 0
    let w := oldest + 60 - now
    let w2 := if 0 < w then w else 0
    (pruned ++ [now + w2], now + w2, w2)
  else (pruned ++ [now], now, 0)

/-- A sequence of rate-limited calls.  Each delta is the (nonnegative)
real-time lapse between the previous admission and the next call's
`time.time()`; returns the admission timestamps in order. -/
def rlRun (N : ℕ) (st : List ℚ) (clock : ℚ) : List ℚ → List ℚ
  | [] => []
  | d :: ds =>
    let s := rlStep N st (clock + d)
    s.2.1 :: rlRun N s.1 s.2.1 ds

/-- No N+1 admissions fit in a trailing 60-second window: consecutive
admissions N apart are at least 60 seconds apart. -/
def GapN (N : ℕ) (A : List ℚ) : Prop :=
  ∀ i, i + N < A.length → A.getD i 0 + 60 ≤ A.getD (i + N) 0

/-- Invariant of the rate-limiter state: `P` is the chronological list of all
admissions so far, `st` the surviving window (a suffix of `P`), `clock` the
time of the last admission.  Entries dropped from the window are at least 60
seconds old; the window holds at most `N + 1` entries, and exactly `N + 1`
only right after a ceiling admission, whose head is then already expired. -/
def RLInv (N : ℕ) (P st : List ℚ) (clock : ℚ) : Prop :=
  P.Sorted (· ≤ ·) ∧
  (∀ a ∈ P, a ≤ clock) ∧
  (∃ k, k ≤ P.length ∧ st = P.drop k ∧ ∀ a ∈ P.take k, a + 60 ≤ clock) ∧
  st.length ≤ N + 1 ∧
  (st.length = N + 1 → st.headD 0 + 60 ≤ clock) ∧
  GapN N P

/-! ### Row data and the segment assembler `process_group` (source lines 126-204) -/

/-- The `Type` cell of a row: column absent (`row.get` returns the default),
NaN (a float, so `.strip()` raises `AttributeError`), or a string. -/
inductive TypeCell where
  | absent
  | nanval
  | val (s : String)
deriving DecidableEq

/-- One row of the grouped table, as `process_group` reads it.
`none` in the sentence fields models a NaN cell (`pd.notna` false).
`repetitions`: `none` = column absent (default 2 used), `some none` = a value
`int()` rejects (NaN or malformed, `ValueError`/`TypeError` caught),
`some (some n)` = a value converting to the integer `n`. -/
structure Row where
  typeCell : TypeCell
  nlSentence : Option String
  enSentence : Option String
  repetitions : Option (Option ℤ)
deriving DecidableEq

/-- A way the embedded run can abort: `sys.exit(code)` or an uncaught
Python exception (traceback, nonzero process exit). -/
inductive RunErr where
  | fatalExit (code : ℕ)
  | pyExn
deriving DecidableEq

/-- `row.get('Type', 'Repeat').strip()` (source line 147). -/
def getAudioType : TypeCell → Except RunErr String
  | .absent => .ok (pyStrip "Repeat")
  | .nanval => .error .pyExn
  | .val s => .ok (pyStrip s)

/-- `int(row.get('Repetitions', 2))` with `ValueError`/`TypeError` coerced
to 2 (source lines 162-165). -/
def parseReps : Option (Option ℤ) → ℤ
  | none => 2
  | some none => 2
  | some (some n) => n

/-- Outcome of one `generate_tts_audio` call as `get_or_generate_audio`
sees it: a payload with its mime type, `(None, None)`, or `sys.exit(1)`
raised inside the call. -/
inductive GenResult where
  | ok (data : List ℕ) (mime : Option String)
  | failed
  | fatal
deriving DecidableEq

/-- Mutable state threaded through a group: the per-group `audio_cache`
dict (insertion-ordered association list) and the log of remote calls
actually issued. -/
structure AState where
  cache : List ((String × String) × Segment)
  calls : List (String × String)
deriving DecidableEq

/-- Python dict lookup on the association list. -/
def cacheLookup (c : List ((String × String) × Segment)) (k : String × String) :
    Option Segment :=
  match c with
  | [] => none
  | (k2, v) :: rest => if k2 = k then some v else cacheLookup rest k

/-- A piece of the assembled output: a generated segment or an inserted
`AudioSegment.silent(duration=ms)`.  Concatenation of segments is modelled
by list append. -/
inductive Piece where
  | seg (s : Segment)
  | silence (ms : ℤ)
deriving DecidableEq

/-- `get_or_generate_audio(text, is_paragraph, language)` (source lines
132-144): consult the cache keyed on `(text, language)`; on miss call the
generator (logged in `calls`); if both returned values are truthy, decode
(a decode `ValueError` escapes) and store; otherwise return `None`. -/
def getOrGenerate (oracle : String → Bool → String → GenResult) (st : AState)
    (text : String) (isPara : Bool) (language : String) :
    Except RunErr (Option Segment × AState) :=
  match cacheLookup st.cache (text, language) with
  | some sg => .ok (some sg, st)
  | none =>
    let st1 : AState := ⟨st.cache, st.calls ++ [(text, language)]⟩
    match oracle text isPara language with
    | .fatal => .error (.fatalExit 1)
    | .failed => .ok (none, st1)
    | .ok d m =>
      match m with
      | none => .ok (none, st1)
      | some ms =>
        if d ≠ [] ∧ ms ≠ "" then
          match createAudioSegment d ms with
          | none => .error .pyExn
          | some sg => .ok (some sg, ⟨st1.cache ++ [((text, language), sg)], st1.calls⟩)
        else .ok (none, st1)

/-- The English-sentence part of a Repeat row (source lines 172-177):
if `EN_Sentence` is not NaN, resolve it; the `if en_segment:` test is Python
truthiness — a pydub segment with `len == 0` ms is falsy — so only a
nonzero-duration segment contributes itself plus a 700 ms silence. -/
def enPart (oracle : String → Bool → String → GenResult) (st : AState)
    (en : Option String) : Except RunErr (List Piece × AState) :=
  match en with
  | none => .ok ([], st)
  | some t =>
    match getOrGenerate oracle st t false "en" with
    | .error e => .error e
    | .ok (some s, st2) =>
      if durMs s = 0 then .ok ([], st2)
      else .ok ([Piece.seg s, Piece.silence 700], st2)
    | .ok (none, st2) => .ok ([], st2)

/-- The repetition loop of a Repeat row (source lines 188-191):
`for i in range(repetitions)` appending the segment, with the pause `p`
added after every iteration except the last (`i < repetitions - 1`). -/
def repBlock (s : Segment) (p : ℤ) (reps : ℤ) : List Piece :=
  (List.range reps.toNat).flatMap
    (fun i => Piece.seg s :: (if (i : ℤ) < reps - 1 then [Piece.silence p] else []))

/-- Processing of one row of `process_group` (source lines 146-197),
returning the updated state and the pieces the row contributes to
`final_audio`.  The tests `if paragraph_segment:` (line 154) and
`if not nl_segment:` (line 181) are Python truthiness: a pydub segment is
falsy exactly when `len == 0` ms, so a `None` result and a zero-duration
segment both skip; only a nonzero-duration primary emits the block. -/
def processRow (oracle : String → Bool → String → GenResult) (st : AState)
    (row : Row) : Except RunErr (AState × List Piece) :=
  match getAudioType row.typeCell with
  | .error e => .error e
  | .ok ty =>
    if ty = "Paragraph" then
      match row.nlSentence with
      | none => .ok (st, [])
      | some txt =>
        match getOrGenerate oracle st txt true "nl" with
        | .error e => .error e
        | .ok (some s, st2) =>
          if durMs s = 0 then .ok (st2, [])
          else .ok (st2, [Piece.seg s, Piece.silence 2000])
        | .ok (none, st2) => .ok (st2, [])
    else if ty = "Repeat" then
      let reps := parseReps row.repetitions
      match row.nlSentence with
      | none => .ok (st, [])
      | some nlTxt =>
        match enPart oracle st row.enSentence with
        | .error e => .error e
        | .ok (enPs, st1) =>
          match getOrGenerate oracle st1 nlTxt false "nl" with
          | .error e => .error e
          | .ok (none, st2) => .ok (st2, [])
          | .ok (some nlSeg, st2) =>
            if durMs nlSeg = 0 then .ok (st2, [])
            else
              let d := durMs nlSeg
              .ok (st2, enPs ++ repBlock nlSeg (pauseRepeatMs d) reps ++
                [Piece.silence (pauseNextMs d)])
    else .ok (st, [])

/-- The row loop of `process_group` (source lines 146-197): fold the rows in
order, concatenating contributions; an error propagates at once, leaving
later rows unprocessed. -/
def processRows (oracle : String → Bool → String → GenResult) (st : AState) :
    List Row → Except RunErr (AState × List Piece)
  | [] => .ok (st, [])
  | r :: rest =>
    match processRow oracle st r with
    | .error e => .error e
    | .ok (st1, ps) =>
      match processRows oracle st1 rest with
      | .error e => .error e
      | .ok (st2, ps2) => .ok (st2, ps ++ ps2)

/-- One group's processing: a fresh empty `audio_cache` (source line 130),
the global call log carried in. -/
def processGroup (oracle : String → Bool → String → GenResult)
    (calls : List (String × String)) (rows : List Row) :
    Except RunErr (AState × List Piece) :=
  processRows oracle ⟨[], calls⟩ rows

/-- The group loop of `main` (source lines 286-287): process each group in
order; a fatal error terminates the process, leaving later groups untouched. -/
def processGroups (oracle : String → Bool → String → GenResult)
    (calls : List (String × String)) :
    List (List Row) → Except RunErr (List (String × String) × List (List Piece))
  | [] => .ok (calls, [])
  | g :: gs =>
    match processGroup oracle calls g with
    | .error e => .error e
    | .ok (st, ps) =>
      match processGroups oracle st.calls gs with
      | .error e => .error e
      | .ok (cs, rest) => .ok (cs, ps :: rest)

/-- Iterated identical requests to `get_or_generate_audio`: issue the same
`(text, is_paragraph, language)` request `n` times, threading the state. -/
def iterGet (oracle : String → Bool → String → GenResult) (st : AState)
    (text : String) (isPara : Bool) (language : String) :
    ℕ → Except RunErr AState
  | 0 => .ok st
  | n + 1 =>
    match getOrGenerate oracle st text isPara language with
    | .error e => .error e
    | .ok (_, st1) => iterGet oracle st1 text isPara language n

/-- Number of generated (non-silence) segments among the pieces. -/
def segCount (l : List Piece) : ℕ :=
  (l.filter (fun pc => match pc with | .seg _ => true | .silence _ => false)).length

/-- Decidable equality for `Except`, for evaluating the model on concrete
inputs. -/
instance instDecEqExcept {ε α : Type} [DecidableEq ε] [DecidableEq α] :
    DecidableEq (Except ε α)
  | .error a, .error b =>
    if h : a = b then isTrue (h ▸ rfl) else isFalse (fun hh => h (Except.error.inj hh))
  | .error _, .ok _ => isFalse (fun hh => Except.noConfusion hh)
  | .ok _, .error _ => isFalse (fun hh => Except.noConfusion hh)
  | .ok a, .ok b =>
    if h : a = b then isTrue (h ▸ rfl) else isFalse (fun hh => h (Except.ok.inj hh))

/-- Spec-shaped repetition block (spec section 4.4, steps 3-4): the segment
repeated, with the pause `p` between consecutive repetitions and none after
the last. -/
def joinReps (s : Segment) (p : ℤ) : ℕ → List Piece
  | 0 => []
  | 1 => [Piece.seg s]
  | n + 2 => Piece.seg s :: Piece.silence p :: joinReps s p (n + 1)

/-! ### Helper lemmas: the retry loop -/

/-- A transient attempt before the last slot: retry, recording one backoff wait. -/
theorem loopAux_transient (attempts : ℕ → Attempt) (i r : ℕ)
    (h : isTransient (attempts i) = true) (hlt : i < MAX_RETRIES - 1) :
    loopAux attempts i (r + 1) =
      ((loopAux attempts (i + 1) r).1,
        RETRY_DELAY_SECONDS * (i + 1) :: (loopAux attempts (i + 1) r).2) := by
  cases ha : attempts i with
  | ok d m =>
    have hd : d = [] := by rw [ha] at h; simpa [isTransient] using h
    simp [loopAux, ha, hd, hlt]
  | blocked => rw [ha] at h; simp [isTransient] at h
  | exn q k =>
    rw [ha] at h
    simp [isTransient, Bool.and_eq_true, Bool.not_eq_true'] at h
    simp [loopAux, ha, h.1, h.2, hlt]

/-- A transient attempt in the last slot: no wait; the loop just ends. -/
theorem loopAux_lastSlot (attempts : ℕ → Attempt) (i r : ℕ)
    (h : isTransient (attempts i) = true) (hge : ¬ i < MAX_RETRIES - 1) :
    loopAux attempts i (r + 1) = loopAux attempts (i + 1) r := by
  cases ha : attempts i with
  | ok d m =>
    have hd : d = [] := by rw [ha] at h; simpa [isTransient] using h
    simp [loopAux, ha, hd, hge]
  | blocked => rw [ha] at h; simp [isTransient] at h
  | exn q k =>
    rw [ha] at h
    simp [isTransient, Bool.and_eq_true, Bool.not_eq_true'] at h
    simp [loopAux, ha, h.1, h.2, hge]

/-- A successful attempt returns at once, with no further waits. -/
theorem loopAux_success (attempts : ℕ → Attempt) (i r : ℕ) (d : List ℕ)
    (m : Option String) (h : attempts i = .ok d m) (hd : d ≠ []) :
    loopAux attempts i (r + 1) = (.success d m, []) := by
  simp [loopAux, h, hd]

/-- A fatal attempt (`sys.exit(1)`) terminates at once, with no further waits. -/
theorem loopAux_fatal (attempts : ℕ → Attempt) (i r : ℕ)
    (h : isFatalAttempt (attempts i) = true) :
    loopAux attempts i (r + 1) = (.fatalExit 1, []) := by
  cases ha : attempts i with
  | ok d m => rw [ha] at h; simp [isFatalAttempt] at h
  | blocked => simp [loopAux, ha]
  | exn q k =>
    rw [ha] at h
    simp [isFatalAttempt, Bool.or_eq_true] at h
    rcases h with h | h
    all_goals cases q <;> cases k <;> simp_all [loopAux]

/-- Peeling `j` consecutive transient attempts off the loop accumulates the
backoff waits `RETRY_DELAY_SECONDS * (i+t+1)` for `t < j`. -/
theorem loopAux_peel (attempts : ℕ → Attempt) :
    ∀ (j i r : ℕ), (∀ t, t < j → isTransient (attempts (i + t)) = true) →
    i + j ≤ MAX_RETRIES - 1 → j ≤ r →
    loopAux attempts i r =
      ((loopAux attempts (i + j) (r - j)).1,
        ((List.range j).map (fun t => RETRY_DELAY_SECONDS * (i + t + 1))) ++
          (loopAux attempts (i + j) (r - j)).2) := by
  intro j
  induction j with
  | zero => intro i r _ _ _; simp
  | succ j ih =>
    intro i r htr hle hjr
    obtain ⟨r, rfl⟩ : ∃ rr, r = rr + 1 := ⟨r - 1, by omega⟩
    have h0 : isTransient (attempts i) = true := by simpa using htr 0 (by omega)
    have hlt : i < MAX_RETRIES - 1 := by omega
    rw [loopAux_transient attempts i r h0 hlt]
    have ih2 := ih (i + 1) r
      (fun t ht => by
        have h3 := htr (t + 1) (by omega)
        have h4 : i + (t + 1) = i + 1 + t := by omega
        rwa [h4] at h3)
      (by omega) (by omega)
    rw [ih2]
    have he1 : i + 1 + j = i + (j + 1) := by omega
    have he2 : r - j = r + 1 - (j + 1) := by omega
    rw [he1, he2]
    refine Prod.ext rfl ?_
    simp only [List.range_succ_eq_map, List.map_cons, List.map_map, List.cons_append]
    refine congrArg₂ _ (by congr 1) ?_
    refine congrArg₂ _ ?_ rfl
    refine List.map_congr_left ?_
    intro t _
    simp only [Function.comp_apply]
    congr 1
    omega

/-- `generate_tts_audio` with `k` transient attempts then a success: exactly
the `k` linear backoff waits, then the payload. -/
theorem generateTTS_success (attempts : ℕ → Attempt) (k : ℕ) (d : List ℕ)
    (m : Option String) (hk : k + 1 ≤ MAX_RETRIES)
    (htr : ∀ i, i < k → isTransient (attempts i) = true)
    (hsucc : attempts k = .ok d m) (hd : d ≠ []) :
    generateTTS attempts =
      (.success d m, (List.range k).map (fun i => RETRY_DELAY_SECONDS * (i + 1))) := by
  have hM : MAX_RETRIES = 10 := rfl
  have hpeel := loopAux_peel attempts k 0 MAX_RETRIES
    (fun t ht => by simpa using htr t ht) (by omega) (by omega)
  obtain ⟨rr, hrr⟩ : ∃ rr, MAX_RETRIES - k = rr + 1 := ⟨MAX_RETRIES - k - 1, by omega⟩
  rw [generateTTS, hpeel]
  rw [Nat.zero_add, hrr, loopAux_success attempts k rr d m hsucc hd]
  simp

/-- `generate_tts_audio` with every attempt transient: all `MAX_RETRIES - 1`
backoff waits, then the non-fatal failure (`return None, None`). -/
theorem generateTTS_exhausted (attempts : ℕ → Attempt)
    (htr : ∀ i, i < MAX_RETRIES → isTransient (attempts i) = true) :
    generateTTS attempts =
      (.exhausted,
        (List.range (MAX_RETRIES - 1)).map (fun i => RETRY_DELAY_SECONDS * (i + 1))) := by
  have hM : MAX_RETRIES = 10 := rfl
  have hpeel := loopAux_peel attempts (MAX_RETRIES - 1) 0 MAX_RETRIES
    (fun t ht => by simpa using htr t (by omega)) (by omega) (by omega)
  rw [generateTTS, hpeel]
  have h1 : MAX_RETRIES - (MAX_RETRIES - 1) = 0 + 1 := by omega
  rw [Nat.zero_add, h1, loopAux_lastSlot attempts (MAX_RETRIES - 1) 0
    (htr _ (by omega)) (by omega)]
  simp [loopAux]

/-- `generate_tts_audio` with `j` transient attempts then a fatal one:
the `j` backoff waits happened, then the process exits with code 1,
attempting nothing further. -/
theorem generateTTS_fatal (attempts : ℕ → Attempt) (j : ℕ) (hj : j < MAX_RETRIES)
    (htr : ∀ i, i < j → isTransient (attempts i) = true)
    (hfat : isFatalAttempt (attempts j) = true) :
    generateTTS attempts =
      (.fatalExit 1, (List.range j).map (fun i => RETRY_DELAY_SECONDS * (i + 1))) := by
  have hM : MAX_RETRIES = 10 := rfl
  by_cases hj9 : j ≤ MAX_RETRIES - 1
  case neg => omega
  have hpeel := loopAux_peel attempts j 0 MAX_RETRIES
    (fun t ht => by simpa using htr t ht) (by omega) (by omega)
  obtain ⟨rr, hrr⟩ : ∃ rr, MAX_RETRIES - j = rr + 1 := ⟨MAX_RETRIES - j - 1, by omega⟩
  rw [generateTTS, hpeel, Nat.zero_add, hrr, loopAux_fatal attempts j rr hfat]
  simp

/-- An error anywhere in a row prefix aborts the whole row list: rows after
the failing one are never consulted. -/
theorem processRows_append_error (oracle : String → Bool → String → GenResult)
    (st : AState) (rows rest : List Row) (e : RunErr)
    (h : processRows oracle st rows = .error e) :
    processRows oracle st (rows ++ rest) = .error e := by
  induction rows generalizing st with
  | nil => simp [processRows] at h
  | cons r rs ih =>
    rw [processRows] at h
    rw [List.cons_append, processRows]
    cases hr : processRow oracle st r with
    | error e2 =>
      rw [hr] at h
      simp at h
      subst h
      simp
    | ok out =>
      obtain ⟨st1, ps⟩ := out
      rw [hr] at h
      dsimp only at h ⊢
      cases hrest : processRows oracle st1 rs with
      | error e2 =>
        rw [hrest] at h
        simp at h
        subst h
        rw [ih st1 hrest]
      | ok out2 =>
        obtain ⟨st2, ps2⟩ := out2
        rw [hrest] at h
        simp at h

/-- An error in a group prefix aborts the whole run: groups after the failing
one are never consulted. -/
theorem processGroups_append_error (oracle : String → Bool → String → GenResult)
    (calls : List (String × String)) (gs rest : List (List Row)) (e : RunErr)
    (h : processGroups oracle calls gs = .error e) :
    processGroups oracle calls (gs ++ rest) = .error e := by
  induction gs generalizing calls with
  | nil => simp [processGroups] at h
  | cons g gss ih =>
    rw [processGroups] at h
    rw [List.cons_append, processGroups]
    cases hg : processGroup oracle calls g with
    | error e2 =>
      rw [hg] at h
      simp at h
      subst h
      simp
    | ok out =>
      obtain ⟨st, ps⟩ := out
      rw [hg] at h
      dsimp only at h ⊢
      cases hrest : processGroups oracle st.calls gss with
      | error e2 =>
        rw [hrest] at h
        simp at h
        subst h
        rw [ih st.calls hrest]
      | ok out2 =>
        obtain ⟨cs, rest2⟩ := out2
        rw [hrest] at h
        simp at h

/-! ### Helper lemmas: the repetition block -/

/-- Congruence for `flatMap` under pointwise equality on members. -/
theorem flatMap_congr_mem {α β : Type} (l : List α) (f g : α → List β)
    (h : ∀ a ∈ l, f a = g a) : l.flatMap f = l.flatMap g := by
  induction l with
  | nil => rfl
  | cons a t ih =>
    simp only [List.flatMap_cons]
    rw [h a (by simp), ih (fun b hb => h b (by simp [hb]))]

/-- The all-but-last shape: `n` `[segment, pause]` blocks then a bare segment
is the spec-shaped block of `n + 1` repetitions. -/
theorem flatMap_const_seg (s : Segment) (p : ℤ) : ∀ n : ℕ,
    (List.range n).flatMap (fun _ => [Piece.seg s, Piece.silence p]) ++ [Piece.seg s] =
      joinReps s p (n + 1) := by
  intro n
  induction n with
  | zero => simp [joinReps]
  | succ n ih =>
    rw [List.range_succ_eq_map]
    simp only [List.flatMap_cons, List.flatMap_map, Function.comp]
    rw [List.append_assoc, ih]
    rfl

/-- The loop of source lines 188-191 at `n + 1` iterations with cutoff `n`
produces the spec-shaped block: pause after every repetition except the last. -/
theorem flatMap_range_cond (s : Segment) (p : ℤ) (n : ℕ) :
    (List.range (n + 1)).flatMap
      (fun i => Piece.seg s :: (if (i : ℤ) < (n : ℤ) then [Piece.silence p] else [])) =
      joinReps s p (n + 1) := by
  rw [List.range_succ, List.flatMap_append]
  have hfirst : (List.range n).flatMap
      (fun i => Piece.seg s :: (if (i : ℤ) < (n : ℤ) then [Piece.silence p] else [])) =
      (List.range n).flatMap (fun _ => [Piece.seg s, Piece.silence p]) := by
    refine flatMap_congr_mem _ _ _ ?_
    intro i hi
    have hc : (i : ℤ) < (n : ℤ) := by exact_mod_cast List.mem_range.mp hi
    simp [hc]
  rw [hfirst]
  have hlast : ¬ ((n : ℤ) < (n : ℤ)) := lt_irrefl _
  simp only [List.flatMap_cons, List.flatMap_nil, hlast, if_false, List.append_nil]
  exact flatMap_const_seg s p n

/-- The source's repetition loop equals the spec-shaped `joinReps` at
`max reps 0` repetitions. -/
theorem repBlock_eq_joinReps (s : Segment) (p : ℤ) (reps : ℤ) :
    repBlock s p reps = joinReps s p reps.toNat := by
  rcases le_or_lt reps 0 with h | h
  · have h0 : reps.toNat = 0 := by omega
    rw [repBlock, h0]
    simp [joinReps]
  · obtain ⟨m, hm⟩ : ∃ m : ℕ, reps.toNat = m + 1 := ⟨reps.toNat - 1, by omega⟩
    have h2 : reps - 1 = (m : ℤ) := by omega
    rw [repBlock, hm]
    simp only [h2]
    exact flatMap_range_cond s p m

/-- `segCount` over a cons. -/
theorem segCount_cons_seg (s : Segment) (l : List Piece) :
    segCount (Piece.seg s :: l) = segCount l + 1 := by
  simp [segCount, List.filter]

/-- `segCount` ignores silences. -/
theorem segCount_cons_silence (ms : ℤ) (l : List Piece) :
    segCount (Piece.silence ms :: l) = segCount l := by
  simp [segCount, List.filter]

/-- The spec-shaped block of `n` repetitions plays the segment exactly `n`
times. -/
theorem segCount_joinReps (s : Segment) (p : ℤ) : ∀ n : ℕ,
    segCount (joinReps s p n) = n
  | 0 => by simp [joinReps, segCount]
  | 1 => by simp [joinReps, segCount, List.filter]
  | n + 2 => by
    rw [joinReps, segCount_cons_seg, segCount_cons_silence,
      segCount_joinReps s p (n + 1)]

/-! ### Helper lemmas: the cache -/

/-- A cache hit returns the stored segment, issuing no call and leaving the
state unchanged. -/
theorem getOrGenerate_hit (oracle : String → Bool → String → GenResult)
    (st : AState) (t : String) (p : Bool) (l : String) (sg : Segment)
    (h : cacheLookup st.cache (t, l) = some sg) :
    getOrGenerate oracle st t p l = .ok (some sg, st) := by
  simp [getOrGenerate, h]

/-- A cache miss with a decodable successful generation: one call is logged,
the decoded segment is stored and returned. -/
theorem getOrGenerate_miss_success (oracle : String → Bool → String → GenResult)
    (st : AState) (t : String) (p : Bool) (l : String) (d : List ℕ) (m : String)
    (sg : Segment) (hmiss : cacheLookup st.cache (t, l) = none)
    (horacle : oracle t p l = .ok d (some m)) (hd : d ≠ []) (hm : m ≠ "")
    (hdec : createAudioSegment d m = some sg) :
    getOrGenerate oracle st t p l =
      .ok (some sg, ⟨st.cache ++ [((t, l), sg)], st.calls ++ [(t, l)]⟩) := by
  simp [getOrGenerate, hmiss, horacle, hd, hm, hdec]

/-- A cache miss with a failed generation: one call is logged, `None` is
returned, and the cache is left unchanged. -/
theorem getOrGenerate_miss_failed (oracle : String → Bool → String → GenResult)
    (st : AState) (t : String) (p : Bool) (l : String)
    (hmiss : cacheLookup st.cache (t, l) = none) (horacle : oracle t p l = .failed) :
    getOrGenerate oracle st t p l = .ok (none, ⟨st.cache, st.calls ++ [(t, l)]⟩) := by
  simp [getOrGenerate, hmiss, horacle]

/-- A cache miss whose successful generation fails to decode: the
`ValueError` escapes and aborts the run instead of returning `None`. -/
theorem getOrGenerate_decode_crash (oracle : String → Bool → String → GenResult)
    (st : AState) (t : String) (p : Bool) (l : String) (d : List ℕ) (m : String)
    (hmiss : cacheLookup st.cache (t, l) = none)
    (horacle : oracle t p l = .ok d (some m)) (hd : d ≠ []) (hm : m ≠ "")
    (hdec : createAudioSegment d m = none) :
    getOrGenerate oracle st t p l = .error .pyExn := by
  simp [getOrGenerate, hmiss, horacle, hd, hm, hdec]

/-- Appending a new entry makes later lookups of its key hit it. -/
theorem cacheLookup_append_self (c : List ((String × String) × Segment))
    (k : String × String) (v : Segment) (h : cacheLookup c k = none) :
    cacheLookup (c ++ [(k, v)]) k = some v := by
  induction c with
  | nil => simp [cacheLookup]
  | cons kv rest ih =>
    obtain ⟨k2, v2⟩ := kv
    rw [cacheLookup] at h
    by_cases hk : k2 = k
    · rw [if_pos hk] at h; simp at h
    · rw [if_neg hk] at h
      rw [List.cons_append, cacheLookup, if_neg hk]
      exact ih h

/-- Once the key is cached, any number of further identical requests return
immediately with the state unchanged. -/
theorem iterGet_stable (oracle : String → Bool → String → GenResult)
    (st : AState) (t : String) (p : Bool) (l : String) (sg : Segment)
    (h : cacheLookup st.cache (t, l) = some sg) :
    ∀ n, iterGet oracle st t p l n = .ok st := by
  intro n
  induction n with
  | zero => rfl
  | succ n ih => rw [iterGet, getOrGenerate_hit oracle st t p l sg h]; exact ih

/-- After a first successful miss, any number of further identical requests
cause no further calls and no state change: `n` identical requests make
exactly one remote call. -/
theorem iterGet_success_once (oracle : String → Bool → String → GenResult)
    (st : AState) (t : String) (p : Bool) (l : String) (d : List ℕ) (m : String)
    (sg : Segment) (hmiss : cacheLookup st.cache (t, l) = none)
    (horacle : oracle t p l = .ok d (some m)) (hd : d ≠ []) (hm : m ≠ "")
    (hdec : createAudioSegment d m = some sg) :
    ∀ n, 1 ≤ n → iterGet oracle st t p l n =
      .ok ⟨st.cache ++ [((t, l), sg)], st.calls ++ [(t, l)]⟩ := by
  intro n hn
  obtain ⟨k, rfl⟩ : ∃ k, n = k + 1 := ⟨n - 1, by omega⟩
  rw [iterGet, getOrGenerate_miss_success oracle st t p l d m sg hmiss horacle hd hm hdec]
  exact iterGet_stable oracle _ t p l sg
    (cacheLookup_append_self st.cache (t, l) sg hmiss) k

/-- When generation fails, every identical request retries the remote call:
`n` identical requests log `n` calls and never populate the cache. -/
theorem iterGet_failed_all (oracle : String → Bool → String → GenResult)
    (t : String) (p : Bool) (l : String) (horacle : oracle t p l = .failed) :
    ∀ (n : ℕ) (st : AState), cacheLookup st.cache (t, l) = none →
    iterGet oracle st t p l n = .ok ⟨st.cache, st.calls ++ List.replicate n (t, l)⟩ := by
  intro n
  induction n with
  | zero => intro st hmiss; cases st; simp [iterGet]
  | succ n ih =>
    intro st hmiss
    rw [iterGet, getOrGenerate_miss_failed oracle st t p l hmiss horacle]
    dsimp only
    rw [ih ⟨st.cache, st.calls ++ [(t, l)]⟩ hmiss]
    simp [List.replicate_succ]

/-! ### Helper lemmas: row processing -/

/-- A blank (NaN) `Type` cell makes `.strip()` raise `AttributeError`,
aborting the row loop. -/
theorem processRow_nanType (oracle : String → Bool → String → GenResult)
    (st : AState) (row : Row) (h : row.typeCell = .nanval) :
    processRow oracle st row = .error .pyExn := by
  simp [processRow, h, getAudioType]

/-- A `Type` string matching neither branch contributes nothing. -/
theorem processRow_skip_other (oracle : String → Bool → String → GenResult)
    (st : AState) (row : Row) (ty : String)
    (hty : getAudioType row.typeCell = .ok ty)
    (h1 : ty ≠ "Paragraph") (h2 : ty ≠ "Repeat") :
    processRow oracle st row = .ok (st, []) := by
  simp [processRow, hty, h1, h2]

/-- A Repeat row with a missing (NaN) primary sentence is skipped before any
synthesis: no pieces, no calls, state unchanged. -/
theorem processRow_repeat_noSource (oracle : String → Bool → String → GenResult)
    (st : AState) (row : Row)
    (hty : getAudioType row.typeCell = .ok "Repeat") (hnl : row.nlSentence = none) :
    processRow oracle st row = .ok (st, []) := by
  simp [processRow, hty, hnl]

/-- A Repeat row whose primary synthesis fails contributes nothing (the
English part already synthesized is discarded with the block). -/
theorem processRow_repeat_srcFail (oracle : String → Bool → String → GenResult)
    (st : AState) (row : Row) (nlTxt : String) (enPs : List Piece) (st1 st2 : AState)
    (hty : getAudioType row.typeCell = .ok "Repeat")
    (hnl : row.nlSentence = some nlTxt)
    (hen : enPart oracle st row.enSentence = .ok (enPs, st1))
    (hnlres : getOrGenerate oracle st1 nlTxt false "nl" = .ok (none, st2)) :
    processRow oracle st row = .ok (st2, []) := by
  simp [processRow, hty, hnl, hen, hnlres]

/-- A Repeat row whose primary resolves as a truthy (nonzero-duration)
segment: English part, then the repetition block with pause `int(D * 1.5)`,
then the trailing `int(D * 2.5)` silence. -/
theorem processRow_repeat_ok (oracle : String → Bool → String → GenResult)
    (st : AState) (row : Row) (nlTxt : String) (enPs : List Piece) (st1 st2 : AState)
    (sg : Segment)
    (hty : getAudioType row.typeCell = .ok "Repeat")
    (hnl : row.nlSentence = some nlTxt)
    (hen : enPart oracle st row.enSentence = .ok (enPs, st1))
    (hnlres : getOrGenerate oracle st1 nlTxt false "nl" = .ok (some sg, st2))
    (hz : durMs sg ≠ 0) :
    processRow oracle st row = .ok (st2, enPs ++
      repBlock sg (pauseRepeatMs (durMs sg)) (parseReps row.repetitions) ++
      [Piece.silence (pauseNextMs (durMs sg))]) := by
  simp [processRow, hty, hnl, hen, hnlres, hz]

/-- A Repeat row whose primary resolves as a zero-duration segment: the
segment is falsy in Python, so `if not nl_segment:` skips the row and it
contributes nothing. -/
theorem processRow_repeat_zeroDur (oracle : String → Bool → String → GenResult)
    (st : AState) (row : Row) (nlTxt : String) (enPs : List Piece) (st1 st2 : AState)
    (sg : Segment)
    (hty : getAudioType row.typeCell = .ok "Repeat")
    (hnl : row.nlSentence = some nlTxt)
    (hen : enPart oracle st row.enSentence = .ok (enPs, st1))
    (hnlres : getOrGenerate oracle st1 nlTxt false "nl" = .ok (some sg, st2))
    (hz : durMs sg = 0) :
    processRow oracle st row = .ok (st2, []) := by
  simp [processRow, hty, hnl, hen, hnlres, hz]

/-- A fold over mime parameters none of which mentions `rate=` keeps the
default. -/
theorem foldlM_no_rate (l : List (List Char)) (acc : ℤ)
    (h : ∀ p ∈ l, chHas "rate=".toList p = false) :
    (l.foldlM (fun rate param =>
      if chHas "rate=".toList param
      then pyIntOfChars ((splitOnChar '=' param).getLastD []) else some rate) acc) =
      some acc := by
  induction l generalizing acc with
  | nil => rfl
  | cons p rest ih =>
    rw [List.foldlM_cons, h p (by simp)]
    simpa using ih acc (fun q hq => h q (by simp [hq]))

/-! ### Claim theorems -/

/-- C1 (amended): for a Repeat row whose primary segment resolves as a truthy
segment (nonzero duration `D = durMs sg`; a zero-duration segment is falsy in
Python, so the row is skipped and contributes nothing), the assembler appends
the English part, then the primary segment exactly `max repeat_count 0` times
with a silence of exactly `int(D * 1.5)` ms (truncation, NOT rounding)
between consecutive repetitions and none after the last, and then always one
trailing silence of exactly `int(D * 2.5)` ms. -/
theorem c1_repeat_assembly :
    (∀ (s : Segment) (p : ℤ) (r : ℤ), repBlock s p r = joinReps s p r.toNat) ∧
    (∀ (oracle : String → Bool → String → GenResult) (st : AState) (row : Row)
      (nlTxt : String) (enPs : List Piece) (st1 st2 : AState) (sg : Segment),
      getAudioType row.typeCell = .ok "Repeat" →
      row.nlSentence = some nlTxt →
      enPart oracle st row.enSentence = .ok (enPs, st1) →
      getOrGenerate oracle st1 nlTxt false "nl" = .ok (some sg, st2) →
      durMs sg ≠ 0 →
      processRow oracle st row = .ok (st2, enPs ++
        joinReps sg (pauseRepeatMs (durMs sg)) (parseReps row.repetitions).toNat ++
        [Piece.silence (pauseNextMs (durMs sg))])) ∧
    (∀ (oracle : String → Bool → String → GenResult) (st : AState) (row : Row)
      (nlTxt : String) (enPs : List Piece) (st1 st2 : AState) (sg : Segment),
      getAudioType row.typeCell = .ok "Repeat" →
      row.nlSentence = some nlTxt →
      enPart oracle st row.enSentence = .ok (enPs, st1) →
      getOrGenerate oracle st1 nlTxt false "nl" = .ok (some sg, st2) →
      durMs sg = 0 →
      processRow oracle st row = .ok (st2, [])) := by
  refine ⟨repBlock_eq_joinReps, ?_, processRow_repeat_zeroDur⟩
  intro oracle st row nlTxt enPs st1 st2 sg hty hnl hen hres hz
  rw [processRow_repeat_ok oracle st row nlTxt enPs st1 st2 sg hty hnl hen hres hz,
    repBlock_eq_joinReps]

/-- C1 witness: a concrete Repeat row with repetitions 2 whose primary
resolves with duration 1 ms. -/
theorem c1_witness :
    processRow (fun _ _ _ => GenResult.ok [0, 0] (some "rate=1000")) ⟨[], []⟩
      ⟨.val "Repeat", some "a", none, some (some 2)⟩ =
      .ok (⟨[(("a", "nl"), ⟨2, 1000, 1, [0, 0]⟩)], [("a", "nl")]⟩,
        [] ++ joinReps ⟨2, 1000, 1, [0, 0]⟩
          (pauseRepeatMs (durMs ⟨2, 1000, 1, [0, 0]⟩)) ((2 : ℤ)).toNat ++
        [Piece.silence (pauseNextMs (durMs ⟨2, 1000, 1, [0, 0]⟩))]) := by
  have h := c1_repeat_assembly.2.1 (fun _ _ _ => GenResult.ok [0, 0] (some "rate=1000"))
    ⟨[], []⟩ ⟨.val "Repeat", some "a", none, some (some 2)⟩ "a" [] ⟨[], []⟩
    ⟨[(("a", "nl"), ⟨2, 1000, 1, [0, 0]⟩)], [("a", "nl")]⟩ ⟨2, 1000, 1, [0, 0]⟩
    (by decide) rfl rfl (by decide) (by decide)
  exact h

/-- C1 counterexample: with primary duration `D = 1` ms and repeat count 2 the
code inserts a silence of `int(1 * 1.5) = 1` ms between the repetitions,
whereas the claim's `round(D * PAUSE_MULTIPLIER_REPEAT)` is 2 ms. -/
theorem c1_counterexample :
    processGroup (fun _ _ _ => GenResult.ok [0, 0] (some "rate=1000")) []
      [⟨.val "Repeat", some "a", none, some (some 2)⟩] =
      .ok (⟨[(("a", "nl"), ⟨2, 1000, 1, [0, 0]⟩)], [("a", "nl")]⟩,
        [Piece.seg ⟨2, 1000, 1, [0, 0]⟩, Piece.silence 1,
         Piece.seg ⟨2, 1000, 1, [0, 0]⟩, Piece.silence 2]) ∧
    durMs ⟨2, 1000, 1, [0, 0]⟩ = 1 ∧
    round ((1 : ℚ) * PAUSE_MULTIPLIER_REPEAT) = 2 ∧
    pauseRepeatMs 1 = 1 ∧ (1 : ℤ) ≠ 2 := by
  refine ⟨by decide, by decide, ?_, by decide, by decide⟩
  rw [PAUSE_MULTIPLIER_REPEAT, round_eq]
  norm_num

/-- C3: `k` transient failures then a success produce exactly the backoff
waits `RETRY_DELAY_SECONDS * 1, ..., RETRY_DELAY_SECONDS * k` and return the
payload immediately; `MAX_RETRIES` transient failures produce the
`MAX_RETRIES - 1` backoff waits (none after the final attempt) and resolve to
the non-fatal `(None, None)`. -/
theorem c3_retry_backoff :
    (∀ (attempts : ℕ → Attempt) (k : ℕ) (d : List ℕ) (m : Option String),
      k + 1 ≤ MAX_RETRIES →
      (∀ i, i < k → isTransient (attempts i) = true) →
      attempts k = .ok d m → d ≠ [] →
      generateTTS attempts =
        (.success d m, (List.range k).map (fun i => RETRY_DELAY_SECONDS * (i + 1)))) ∧
    (∀ attempts : ℕ → Attempt,
      (∀ i, i < MAX_RETRIES → isTransient (attempts i) = true) →
      generateTTS attempts =
        (.exhausted,
          (List.range (MAX_RETRIES - 1)).map (fun i => RETRY_DELAY_SECONDS * (i + 1)))) :=
  ⟨generateTTS_success, generateTTS_exhausted⟩

/-- C3 witness: two transient failures then a success: waits 20 s and 40 s. -/
theorem c3_witness :
    generateTTS (fun i => if i < 2 then .exn false false else .ok [5] (some "m")) =
      (.success [5] (some "m"), [20, 40]) := by
  have h := c3_retry_backoff.1
    (fun i => if i < 2 then .exn false false else .ok [5] (some "m"))
    2 [5] (some "m") (by decide) (by decide) (by decide) (by decide)
  rw [show ((List.range 2).map fun i => RETRY_DELAY_SECONDS * (i + 1)) = [20, 40]
    from by decide] at h
  exact h

/-- C4: a content block, a quota (`RESOURCE_EXHAUSTED`) error or an invalid
credential terminates the process at once with exit code 1 — no further
attempt, row or group is processed — while purely transient errors are
retried and at worst degrade to a per-row skip that never terminates the
process. -/
theorem c4_fatal_classification :
    (∀ (attempts : ℕ → Attempt) (j : ℕ),
      j < MAX_RETRIES →
      (∀ i, i < j → isTransient (attempts i) = true) →
      isFatalAttempt (attempts j) = true →
      generateTTS attempts =
        (.fatalExit 1, (List.range j).map (fun i => RETRY_DELAY_SECONDS * (i + 1)))) ∧
    (∀ (oracle : String → Bool → String → GenResult) (st : AState)
      (rows rest : List Row) (e : RunErr),
      processRows oracle st rows = .error e →
      processRows oracle st (rows ++ rest) = .error e) ∧
    (∀ (oracle : String → Bool → String → GenResult) (calls : List (String × String))
      (gs rest : List (List Row)) (e : RunErr),
      processGroups oracle calls gs = .error e →
      processGroups oracle calls (gs ++ rest) = .error e) ∧
    (∀ attempts : ℕ → Attempt,
      (∀ i, i < MAX_RETRIES → isTransient (attempts i) = true) →
      (generateTTS attempts).1 = .exhausted) ∧
    (∀ (oracle : String → Bool → String → GenResult) (st : AState) (row : Row)
      (nlTxt : String),
      getAudioType row.typeCell = .ok "Repeat" →
      row.nlSentence = some nlTxt → row.enSentence = none →
      cacheLookup st.cache (nlTxt, "nl") = none →
      oracle nlTxt false "nl" = .failed →
      processRow oracle st row = .ok (⟨st.cache, st.calls ++ [(nlTxt, "nl")]⟩, [])) := by
  refine ⟨generateTTS_fatal, processRows_append_error, processGroups_append_error,
    fun a h => by rw [generateTTS_exhausted a h], ?_⟩
  intro oracle st row nlTxt hty hnl hen hmiss horc
  refine processRow_repeat_srcFail oracle st row nlTxt [] st _ hty hnl ?_ ?_
  · rw [hen]; rfl
  · exact getOrGenerate_miss_failed oracle st nlTxt false "nl" hmiss horc

/-- C4 witness: three transient failures then a content block abort with
exit code 1 after exactly the three backoff waits. -/
theorem c4_witness :
    generateTTS (fun i => if i < 3 then .exn false false else .blocked) =
      (.fatalExit 1, [20, 40, 60]) := by
  have h := c4_fatal_classification.1
    (fun i => if i < 3 then .exn false false else .blocked) 3
    (by decide) (by decide) (by decide)
  rw [show ((List.range 3).map fun i => RETRY_DELAY_SECONDS * (i + 1)) = [20, 40, 60]
    from by decide] at h
  exact h

/-- C5 (amended): a cache hit returns the stored segment with no remote call;
a successful miss stores and returns the decoded segment, so `n` identical
requests cause exactly one remote call; a generation failure returns `None`
leaving the cache unchanged so each later identical request retries the
remote call; but a decode failure raises and aborts the run instead of
returning `None`. -/
theorem c5_cache :
    (∀ (oracle : String → Bool → String → GenResult) (st : AState)
      (t : String) (p : Bool) (l : String) (sg : Segment),
      cacheLookup st.cache (t, l) = some sg →
      getOrGenerate oracle st t p l = .ok (some sg, st)) ∧
    (∀ (oracle : String → Bool → String → GenResult) (st : AState)
      (t : String) (p : Bool) (l : String) (d : List ℕ) (m : String) (sg : Segment),
      cacheLookup st.cache (t, l) = none →
      oracle t p l = .ok d (some m) → d ≠ [] → m ≠ "" →
      createAudioSegment d m = some sg →
      getOrGenerate oracle st t p l =
        .ok (some sg, ⟨st.cache ++ [((t, l), sg)], st.calls ++ [(t, l)]⟩)) ∧
    (∀ (oracle : String → Bool → String → GenResult) (st : AState)
      (t : String) (p : Bool) (l : String),
      cacheLookup st.cache (t, l) = none → oracle t p l = .failed →
      getOrGenerate oracle st t p l = .ok (none, ⟨st.cache, st.calls ++ [(t, l)]⟩)) ∧
    (∀ (oracle : String → Bool → String → GenResult) (st : AState)
      (t : String) (p : Bool) (l : String) (d : List ℕ) (m : String) (sg : Segment),
      cacheLookup st.cache (t, l) = none →
      oracle t p l = .ok d (some m) → d ≠ [] → m ≠ "" →
      createAudioSegment d m = some sg →
      ∀ n, 1 ≤ n → iterGet oracle st t p l n =
        .ok ⟨st.cache ++ [((t, l), sg)], st.calls ++ [(t, l)]⟩) ∧
    (∀ (oracle : String → Bool → String → GenResult) (t : String) (p : Bool)
      (l : String), oracle t p l = .failed →
      ∀ (n : ℕ) (st : AState), cacheLookup st.cache (t, l) = none →
      iterGet oracle st t p l n =
        .ok ⟨st.cache, st.calls ++ List.replicate n (t, l)⟩) ∧
    (∀ (oracle : String → Bool → String → GenResult) (st : AState)
      (t : String) (p : Bool) (l : String) (d : List ℕ) (m : String),
      cacheLookup st.cache (t, l) = none →
      oracle t p l = .ok d (some m) → d ≠ [] → m ≠ "" →
      createAudioSegment d m = none →
      getOrGenerate oracle st t p l = .error .pyExn) :=
  ⟨getOrGenerate_hit, getOrGenerate_miss_success, getOrGenerate_miss_failed,
    iterGet_success_once, iterGet_failed_all, getOrGenerate_decode_crash⟩

/-- C5 witness: three identical requests in one group cause exactly one
logged remote call and leave one cache entry. -/
theorem c5_witness :
    iterGet (fun _ _ _ => GenResult.ok [0] (some "rate=24000")) ⟨[], []⟩
      "x" false "nl" 3 =
      .ok ⟨[(("x", "nl"), ⟨2, 24000, 1, [0]⟩)], [("x", "nl")]⟩ := by
  have h := c5_cache.2.2.2.1 (fun _ _ _ => GenResult.ok [0] (some "rate=24000"))
    ⟨[], []⟩ "x" false "nl" [0] "rate=24000" ⟨2, 24000, 1, [0]⟩
    (by decide) rfl (by decide) (by decide) (by decide) 3 (by decide)
  simpa using h

/-- C5 counterexample: a "failure" that is a decode failure (malformed
`rate=` value) does not return `None` with the cache unchanged — it raises,
aborting the run. -/
theorem c5_counterexample :
    getOrGenerate (fun _ _ _ => GenResult.ok [0] (some "a;rate=zz")) ⟨[], []⟩
      "x" false "nl" = .error .pyExn ∧
    (Except.error RunErr.pyExn ≠
      (.ok (none, ⟨[], [("x", "nl")]⟩) : Except RunErr (Option Segment × AState))) := by
  exact ⟨by decide, by decide⟩

/-- C6 (amended): a Repeat row whose `source_text` cell is missing (NaN) is
skipped entirely — no pieces, no remote call, state unchanged.  (An
empty-string `source_text`, by contrast, is not skipped: see the
counterexample.) -/
theorem c6_skip_missing :
    ∀ (oracle : String → Bool → String → GenResult) (st : AState) (row : Row),
      getAudioType row.typeCell = .ok "Repeat" → row.nlSentence = none →
      processRow oracle st row = .ok (st, []) :=
  processRow_repeat_noSource

/-- C6 witness: a Repeat row with NaN source and a present translation is
skipped wholesale. -/
theorem c6_witness :
    processRow (fun _ _ _ => GenResult.failed) ⟨[], []⟩
      ⟨.val "Repeat", none, some "hello", some (some 3)⟩ = .ok (⟨[], []⟩, []) :=
  c6_skip_missing (fun _ _ _ => GenResult.failed) ⟨[], []⟩
    ⟨.val "Repeat", none, some "hello", some (some 3)⟩ (by decide) rfl

/-- C6 counterexample: a Repeat row with an empty-string (not NaN)
`source_text` is NOT skipped: it issues a remote call for `""` and
contributes pieces. -/
theorem c6_counterexample :
    processGroup (fun _ _ _ => GenResult.ok [0, 0] (some "rate=1000")) []
      [⟨.val "Repeat", some "", none, some (some 1)⟩] =
      .ok (⟨[(("", "nl"), ⟨2, 1000, 1, [0, 0]⟩)], [("", "nl")]⟩,
        [Piece.seg ⟨2, 1000, 1, [0, 0]⟩, Piece.silence 2]) ∧
    ([("", "nl")] : List (String × String)) ≠ [] := by
  exact ⟨by decide, by decide⟩

/-- C7 (amended): decoding fixes sample width 2 bytes (16-bit) and one
channel (mono), with the sample rate taken from the parsed `rate=` mime
parameter; 24000 Hz is used when no parameter contains `rate=`; but a present
yet unparseable `rate=` value makes decoding raise (abort), not default. -/
theorem c7_decode :
    (∀ (d : List ℕ) (m : String) (r : ℤ),
      computeRate m = some r → createAudioSegment d m = some ⟨2, r, 1, d⟩) ∧
    (∀ m : String,
      (∀ p ∈ splitOnChar ';' m.toList, chHas "rate=".toList p = false) →
      computeRate m = some 24000) ∧
    createAudioSegment [0] "audio/L16;rate=abc" = none := by
  refine ⟨?_, ?_, by decide⟩
  · intro d m r h
    simp [createAudioSegment, h]
  · intro m h
    exact foldlM_no_rate (splitOnChar ';' m.toList) 24000 h

/-- C7 witness: a parseable rate is used; a mime type with no `rate=`
parameter defaults to 24000. -/
theorem c7_witness :
    createAudioSegment [7] "audio/x;rate=16000" = some ⟨2, 16000, 1, [7]⟩ ∧
    computeRate "audio/L16" = some 24000 :=
  ⟨c7_decode.1 [7] "audio/x;rate=16000" 16000 (by decide),
   c7_decode.2.1 "audio/L16" (by decide)⟩

/-- C7 counterexample: a malformed `rate=` value makes decoding fail
(`int('abc')` raises), contradicting "decoding does not fail on a malformed
media-type string". -/
theorem c7_counterexample :
    computeRate "audio/L16;rate=abc" = none ∧
    createAudioSegment [0, 0] "audio/L16;rate=abc" = none := by
  exact ⟨by decide, by decide⟩

/-- C8 (amended): the spec scenario with repetitions = 3 and primary duration
1000 ms yields the translation segment, 700 ms silence, then THREE primary
playbacks with two 1500 ms pauses between them, then 2500 ms trailing
silence. -/
theorem c8_scenario :
    processGroup
      (fun t _ l =>
        if t = "Hallo" ∧ l = "nl" then
          GenResult.ok (List.replicate 48 0) (some "audio/foo;rate=24")
        else if t = "Hello" ∧ l = "en" then
          GenResult.ok (List.replicate 24 0) (some "audio/foo;rate=24")
        else GenResult.failed)
      [] [⟨.val "Repeat", some "Hallo", some "Hello", some (some 3)⟩] =
      .ok (⟨[(("Hello", "en"), ⟨2, 24, 1, List.replicate 24 0⟩),
             (("Hallo", "nl"), ⟨2, 24, 1, List.replicate 48 0⟩)],
            [("Hello", "en"), ("Hallo", "nl")]⟩,
        [Piece.seg ⟨2, 24, 1, List.replicate 24 0⟩, Piece.silence 700,
         Piece.seg ⟨2, 24, 1, List.replicate 48 0⟩, Piece.silence 1500,
         Piece.seg ⟨2, 24, 1, List.replicate 48 0⟩, Piece.silence 1500,
         Piece.seg ⟨2, 24, 1, List.replicate 48 0⟩, Piece.silence 2500]) := by
  decide

/-- C8 counterexample: the claim's sequence (only two primary playbacks for
repetitions = 3) differs from what the assembler produces. -/
theorem c8_counterexample :
    processGroup
      (fun t _ l =>
        if t = "Hallo" ∧ l = "nl" then
          GenResult.ok (List.replicate 48 0) (some "audio/foo;rate=24")
        else if t = "Hello" ∧ l = "en" then
          GenResult.ok (List.replicate 24 0) (some "audio/foo;rate=24")
        else GenResult.failed)
      [] [⟨.val "Repeat", some "Hallo", some "Hello", some (some 3)⟩] ≠
      .ok (⟨[(("Hello", "en"), ⟨2, 24, 1, List.replicate 24 0⟩),
             (("Hallo", "nl"), ⟨2, 24, 1, List.replicate 48 0⟩)],
            [("Hello", "en"), ("Hallo", "nl")]⟩,
        [Piece.seg ⟨2, 24, 1, List.replicate 24 0⟩, Piece.silence 700,
         Piece.seg ⟨2, 24, 1, List.replicate 48 0⟩, Piece.silence 1500,
         Piece.seg ⟨2, 24, 1, List.replicate 48 0⟩, Piece.silence 2500]) := by
  decide

/-- C9 (amended): a missing or malformed `Repetitions` value is coerced to
the default 2, and — when the primary segment resolves as a truthy
(nonzero-duration) segment — the number of primary-segment playbacks equals
`max repeat_count 0`, which is 0, not at least 1, when the cell holds a
nonpositive integer. -/
theorem c9_reps :
    parseReps none = 2 ∧ parseReps (some none) = 2 ∧
    (∀ (s : Segment) (p : ℤ) (r : ℤ), segCount (repBlock s p r) = r.toNat) ∧
    (∀ (oracle : String → Bool → String → GenResult) (st : AState) (row : Row)
      (nlTxt : String) (enPs : List Piece) (st1 st2 : AState) (sg : Segment),
      getAudioType row.typeCell = .ok "Repeat" →
      row.nlSentence = some nlTxt →
      enPart oracle st row.enSentence = .ok (enPs, st1) →
      getOrGenerate oracle st1 nlTxt false "nl" = .ok (some sg, st2) →
      durMs sg ≠ 0 →
      processRow oracle st row = .ok (st2, enPs ++
        repBlock sg (pauseRepeatMs (durMs sg)) (parseReps row.repetitions) ++
        [Piece.silence (pauseNextMs (durMs sg))])) := by
  refine ⟨rfl, rfl, ?_, processRow_repeat_ok⟩
  intro s p r
  rw [repBlock_eq_joinReps, segCount_joinReps]

/-- C9 witness: `Repetitions = 0` is taken as written: the contribution of
the row holds zero primary playbacks (only the trailing silence). -/
theorem c9_witness :
    processRow (fun _ _ _ => GenResult.ok [0, 0] (some "rate=1000")) ⟨[], []⟩
      ⟨.val "Repeat", some "a", none, some (some 0)⟩ =
      .ok (⟨[(("a", "nl"), ⟨2, 1000, 1, [0, 0]⟩)], [("a", "nl")]⟩,
        [] ++ repBlock ⟨2, 1000, 1, [0, 0]⟩
          (pauseRepeatMs (durMs ⟨2, 1000, 1, [0, 0]⟩)) 0 ++
        [Piece.silence (pauseNextMs (durMs ⟨2, 1000, 1, [0, 0]⟩))]) := by
  have h := c9_reps.2.2.2 (fun _ _ _ => GenResult.ok [0, 0] (some "rate=1000"))
    ⟨[], []⟩ ⟨.val "Repeat", some "a", none, some (some 0)⟩ "a" [] ⟨[], []⟩
    ⟨[(("a", "nl"), ⟨2, 1000, 1, [0, 0]⟩)], [("a", "nl")]⟩ ⟨2, 1000, 1, [0, 0]⟩
    (by decide) rfl rfl (by decide) (by decide)
  exact h

/-- C9 counterexample: a row with `Repetitions = 0` contributes zero primary
playbacks, refuting "the count actually applied is always at least 1". -/
theorem c9_counterexample :
    processGroup (fun _ _ _ => GenResult.ok [0, 0] (some "rate=1000")) []
      [⟨.val "Repeat", some "a", none, some (some 0)⟩] =
      .ok (⟨[(("a", "nl"), ⟨2, 1000, 1, [0, 0]⟩)], [("a", "nl")]⟩,
        [Piece.silence 2]) ∧
    segCount [Piece.silence 2] = 0 ∧ ¬ (1 ≤ segCount [Piece.silence 2]) := by
  exact ⟨by decide, by decide, by decide⟩

/-- C10: a present-but-blank (NaN) `Type` cell raises `AttributeError`
(`.strip()` on a float), aborting the whole run before any later row; the
`Repeat` default applies exactly when the `Type` column is absent; and any
other non-matching `Type` string makes the row contribute nothing rather
than being treated as Repeat. -/
theorem c10_type_cell :
    (∀ (oracle : String → Bool → String → GenResult) (st : AState) (row : Row)
      (rest : List Row), row.typeCell = .nanval →
      processRows oracle st (row :: rest) = .error .pyExn) ∧
    getAudioType .absent = .ok "Repeat" ∧
    (∀ s : String, pyStrip s ≠ "Paragraph" → pyStrip s ≠ "Repeat" →
      ∀ (oracle : String → Bool → String → GenResult) (st : AState)
        (nl en : Option String) (reps : Option (Option ℤ)),
        processRow oracle st ⟨.val s, nl, en, reps⟩ = .ok (st, [])) := by
  refine ⟨?_, by decide, ?_⟩
  · intro oracle st row rest h
    rw [processRows, processRow_nanType oracle st row h]
  · intro s h1 h2 oracle st nl en reps
    exact processRow_skip_other oracle st ⟨.val s, nl, en, reps⟩ (pyStrip s) rfl h1 h2

/-- C10 witness: a NaN `Type` in the first of two rows aborts the run; the
string `Foo` contributes nothing. -/
theorem c10_witness :
    processRows (fun _ _ _ => GenResult.failed) ⟨[], []⟩
      [⟨.nanval, some "a", none, none⟩, ⟨.val "Repeat", some "b", none, none⟩] =
      .error .pyExn ∧
    processRow (fun _ _ _ => GenResult.failed) ⟨[], []⟩
      ⟨.val "Foo", some "a", none, none⟩ = .ok (⟨[], []⟩, []) :=
  ⟨c10_type_cell.1 (fun _ _ _ => GenResult.failed) ⟨[], []⟩
      ⟨.nanval, some "a", none, none⟩ [⟨.val "Repeat", some "b", none, none⟩] rfl,
   c10_type_cell.2.2 "Foo" (by decide) (by decide)
      (fun _ _ _ => GenResult.failed) ⟨[], []⟩ (some "a") none none⟩

/-! ### Helper lemmas: lists, for the rate limiter -/

/-- The default head of a nonempty list is a member. -/
theorem headD_mem (l : List ℚ) (h : l ≠ []) : l.headD 0 ∈ l := by
  cases l with
  | nil => exact absurd rfl h
  | cons x xs => simp

/-- The default head of a drop is the indexed element. -/
theorem headD_drop (l : List ℚ) : ∀ j, j < l.length → (l.drop j).headD 0 = l.getD j 0 := by
  induction l with
  | nil => intro j hj; simp at hj
  | cons x xs ih =>
    intro j hj
    cases j with
    | zero => simp
    | succ j => simpa using ih j (by simp at hj; omega)

/-- An element indexed below a take bound is in the take. -/
theorem getD_mem_take (l : List ℚ) (i j : ℕ) (hij : i < j) (hi : i < l.length) :
    l.getD i 0 ∈ l.take j := by
  have hlen : i < (l.take j).length := by simp; omega
  have he : (l.take j).getD i 0 = l.getD i 0 := by
    rw [List.getD_eq_getElem _ _ hlen, List.getD_eq_getElem _ _ hi]
    simp [List.getElem_take]
  rw [← he, List.getD_eq_getElem _ _ hlen]
  exact List.getElem_mem hlen

/-- In a sorted list, the element at `j` bounds everything dropped past `j`. -/
theorem sorted_le_of_mem_drop (l : List ℚ) (hs : l.Sorted (· ≤ ·)) (j : ℕ)
    (hj : j < l.length) (a : ℚ) (ha : a ∈ l.drop j) : l.getD j 0 ≤ a := by
  obtain ⟨t, ht, hta⟩ := List.getElem_of_mem ha
  have hjt : j + t < l.length := by
    have := ht
    simp [List.length_drop] at this
    omega
  rw [List.getElem_drop] at hta
  rw [List.getD_eq_getElem _ _ hj, ← hta]
  rcases Nat.eq_zero_or_pos t with h0 | hpos
  · subst h0; rfl
  · exact List.pairwise_iff_getElem.mp hs j (j + t) hj hjt (by omega)

/-- Appending a larger element preserves sortedness. -/
theorem sorted_append_singleton (l : List ℚ) (x : ℚ) (hs : l.Sorted (· ≤ ·))
    (hx : ∀ a ∈ l, a ≤ x) : (l ++ [x]).Sorted (· ≤ ·) := by
  refine List.pairwise_append.mpr ⟨hs, List.pairwise_singleton _ _, ?_⟩
  intro a ha b hb
  rw [List.mem_singleton] at hb
  subst hb
  exact hx a ha

/-- The element a concatenation appends sits at the old length. -/
theorem getD_append_length (l : List ℚ) (x : ℚ) : (l ++ [x]).getD l.length 0 = x := by
  induction l with
  | nil => rfl
  | cons y ys ih => simpa using ih

/-- Pruning a sorted list by recency keeps exactly a suffix, and everything
pruned away is at least 60 seconds old. -/
theorem filter_suffix_sorted (l : List ℚ) (c : ℚ) (hs : l.Sorted (· ≤ ·)) :
    ∃ m, m ≤ l.length ∧ l.filter (fun t => decide (c - t < 60)) = l.drop m ∧
      ∀ a ∈ l.take m, a + 60 ≤ c := by
  induction l with
  | nil => exact ⟨0, by simp⟩
  | cons x xs ih =>
    have hs' : xs.Sorted (· ≤ ·) := (List.pairwise_cons.mp hs).2
    have hx : ∀ a ∈ xs, x ≤ a := (List.pairwise_cons.mp hs).1
    by_cases hc : c - x < 60
    · refine ⟨0, by simp, ?_, by simp⟩
      rw [List.filter_cons, if_pos (by simpa using hc)]
      rw [List.drop_zero]
      have : xs.filter (fun t => decide (c - t < 60)) = xs := by
        rw [List.filter_eq_self]
        intro a ha
        have := hx a ha
        simp only [decide_eq_true_eq]
        linarith
      rw [this]
    · obtain ⟨m, hm1, hm2, hm3⟩ := ih hs'
      refine ⟨m + 1, by simpa using hm1, ?_, ?_⟩
      · rw [List.filter_cons, if_neg (by simpa using hc)]
        simpa using hm2
      · intro a ha
        rw [List.take_succ_cons] at ha
        rcases List.mem_cons.mp ha with rfl | h
        · linarith [not_lt.mp hc]
        · exact hm3 a h

/-- `rlStep` at the ceiling: the wait is exactly `oldest + 60 - now` (always
positive, since the oldest surviving entry is younger than 60 s), and the
admission happens at `oldest + 60`. -/
theorem rlStep_ceil (N : ℕ) (hN : 0 < N) (st : List ℚ) (now : ℚ)
    (h : N ≤ (st.filter (fun t => decide (now - t < 60))).length) :
    rlStep N st now =
      (st.filter (fun t => decide (now - t < 60)) ++
        [(st.filter (fun t => decide (now - t < 60))).headD 0 + 60],
       (st.filter (fun t => decide (now - t < 60))).headD 0 + 60,
       (st.filter (fun t => decide (now - t < 60))).headD 0 + 60 - now) := by
  have hne : st.filter (fun t => decide (now - t < 60)) ≠ [] := by
    intro hnil
    rw [hnil] at h
    simp at h
    omega
  have hmem := headD_mem _ hne
  have hlt : now - (st.filter (fun t => decide (now - t < 60))).headD 0 < 60 := by
    have := (List.mem_filter.mp hmem).2
    simpa using this
  have hw : 0 < (st.filter (fun t => decide (now - t < 60))).headD 0 + 60 - now := by
    linarith
  simp only [rlStep]
  rw [if_pos h, if_pos hw]
  have harith : now + ((st.filter (fun t => decide (now - t < 60))).headD 0 + 60 - now) =
      (st.filter (fun t => decide (now - t < 60))).headD 0 + 60 := by ring
  rw [harith]

/-- `rlStep` below the ceiling: no wait, admission at `now`. -/
theorem rlStep_below (N : ℕ) (st : List ℚ) (now : ℚ)
    (h : ¬ N ≤ (st.filter (fun t => decide (now - t < 60))).length) :
    rlStep N st now = (st.filter (fun t => decide (now - t < 60)) ++ [now], now, 0) := by
  simp only [rlStep]
  rw [if_neg h]

/-- The default head of an append with nonempty first part. -/
theorem headD_append_left (l l2 : List ℚ) (h : l ≠ []) :
    (l ++ l2).headD 0 = l.headD 0 := by
  cases l with
  | nil => exact absurd rfl h
  | cons x xs => rfl

/-- One `rlStep` preserves the rate-limiter invariant, and time never moves
backward: the admission instant is at or after the previous one. -/
theorem rlStep_inv (N : ℕ) (hN : 0 < N) (P st : List ℚ) (clock d : ℚ)
    (hInv : RLInv N P st clock) (hd : 0 ≤ d) :
    RLInv N (P ++ [(rlStep N st (clock + d)).2.1]) (rlStep N st (clock + d)).1
      (rlStep N st (clock + d)).2.1 ∧ clock ≤ (rlStep N st (clock + d)).2.1 := by
  obtain ⟨hsortP, hleP, ⟨k, hk, hst, hdropped⟩, hlen, hstruct, hgap⟩ := hInv
  set now := clock + d with hnow
  have hclocknow : clock ≤ now := by rw [hnow]; linarith
  have hsortst : st.Sorted (· ≤ ·) := by
    rw [hst]; exact List.Pairwise.sublist (List.drop_sublist k P) hsortP
  obtain ⟨m, hmle, hfilter, hexp⟩ := filter_suffix_sorted st now hsortst
  set pruned := st.filter (fun t => decide (now - t < 60)) with hpruned
  have hstlen : st.length = P.length - k := by rw [hst, List.length_drop]
  have hprP : pruned = P.drop (k + m) := by
    rw [hfilter, hst, List.drop_drop]
  have hkm : k + m ≤ P.length := by omega
  have hprlen : pruned.length = P.length - (k + m) := by
    rw [hprP, List.length_drop]
  have hexpired : ∀ a ∈ P.take (k + m), a + 60 ≤ now := by
    intro a ha
    rw [List.take_add] at ha
    rcases List.mem_append.mp ha with h | h
    · have := hdropped a h; linarith
    · rw [← hst] at h; exact hexp a h
  by_cases hceil : N ≤ pruned.length
  · -- the window is at the ceiling
    have hprN : pruned.length = N := by
      rcases Nat.lt_or_ge st.length (N + 1) with hlt | hge
      · have h2 : pruned.length ≤ st.length := by
          rw [hfilter, List.length_drop]; omega
        omega
      · have hstN : st.length = N + 1 := by omega
        have hh := hstruct hstN
        cases hste : st with
        | nil => rw [hste] at hstN; simp at hstN
        | cons x xs =>
          have hx : x + 60 ≤ clock := by rw [hste] at hh; simpa using hh
          have hxfail : ¬ (now - x < 60) := by linarith
          have heq : pruned = xs.filter (fun t => decide (now - t < 60)) := by
            rw [hpruned, hste, List.filter_cons, if_neg (by simpa using hxfail)]
          have h3 : pruned.length ≤ xs.length := heq ▸ List.length_filter_le _ _
          have h4 : xs.length + 1 = N + 1 := by rw [hste] at hstN; simpa using hstN
          omega
    have hNP : N ≤ P.length := by omega
    have hPN : k + m = P.length - N := by omega
    have hne : pruned ≠ [] := by
      intro h0; rw [h0] at hprN; simp at hprN; omega
    have hmem := headD_mem pruned hne
    have hmem2 : pruned.headD 0 ∈ st.filter (fun t => decide (now - t < 60)) := by
      rw [← hpruned]; exact hmem
    have holdlt : now - pruned.headD 0 < 60 :=
      of_decide_eq_true (List.mem_filter.mp hmem2).2
    have holdidx : pruned.headD 0 = P.getD (P.length - N) 0 := by
      rw [hprP, hPN]
      exact headD_drop P (P.length - N) (by omega)
    have hstep := rlStep_ceil N hN st now hceil
    rw [← hpruned] at hstep
    rw [hstep]
    dsimp only
    have hadmit : now ≤ pruned.headD 0 + 60 := by linarith
    refine ⟨⟨?_, ?_, ?_, ?_, ?_, ?_⟩, by linarith⟩
    · exact sorted_append_singleton P _ hsortP
        (fun a ha => by have := hleP a ha; linarith)
    · intro a ha
      rcases List.mem_append.mp ha with h | h
      · have := hleP a h; linarith
      · rw [List.mem_singleton] at h; subst h; rfl
    · refine ⟨k + m, by simp [List.length_append]; omega, ?_, ?_⟩
      · rw [List.drop_append_of_le_length hkm, hprP]
      · intro a ha
        rw [List.take_append_of_le_length hkm] at ha
        have := hexpired a ha
        linarith
    · simp [hprN]
    · intro _
      rw [headD_append_left pruned _ hne]
    · intro i hi
      rw [List.length_append, List.length_singleton] at hi
      rcases Nat.lt_or_ge (i + N) P.length with hlt | hge
      · rw [List.getD_append _ _ _ _ (by omega), List.getD_append _ _ _ _ hlt]
        exact hgap i hlt
      · have hieq : i = P.length - N := by omega
        have hiN : i + N = P.length := by omega
        rw [hiN, getD_append_length, List.getD_append _ _ _ _ (by omega), hieq,
          ← holdidx]
  · -- below the ceiling: admit immediately at `now`
    have hprltN : pruned.length < N := by omega
    have hstep := rlStep_below N st now hceil
    rw [← hpruned] at hstep
    rw [hstep]
    dsimp only
    refine ⟨⟨?_, ?_, ?_, ?_, ?_, ?_⟩, hclocknow⟩
    · exact sorted_append_singleton P _ hsortP
        (fun a ha => by have := hleP a ha; linarith)
    · intro a ha
      rcases List.mem_append.mp ha with h | h
      · have := hleP a h; linarith
      · rw [List.mem_singleton] at h; subst h; rfl
    · refine ⟨k + m, by simp [List.length_append]; omega, ?_, ?_⟩
      · rw [List.drop_append_of_le_length hkm, hprP]
      · intro a ha
        rw [List.take_append_of_le_length hkm] at ha
        exact hexpired a ha
    · simp; omega
    · intro habs
      simp at habs
      omega
    · intro i hi
      rw [List.length_append, List.length_singleton] at hi
      rcases Nat.lt_or_ge (i + N) P.length with hlt | hge
      · rw [List.getD_append _ _ _ _ (by omega), List.getD_append _ _ _ _ hlt]
        exact hgap i hlt
      · have hiN : i + N = P.length := by omega
        have hikm : i < k + m := by omega
        have hiP : i < P.length := by omega
        rw [hiN, getD_append_length, List.getD_append _ _ _ _ hiP]
        have hmem2 := getD_mem_take P i (k + m) hikm hiP
        have := hexpired _ hmem2
        linarith

/-- Running the limiter from an invariant state returns one admission per
request and keeps the full admission history sorted with the N-apart gap
property. -/
theorem rlRun_inv (N : ℕ) (hN : 0 < N) :
    ∀ (ds : List ℚ) (P st : List ℚ) (clock : ℚ), RLInv N P st clock →
      (∀ x ∈ ds, 0 ≤ x) →
      (rlRun N st clock ds).length = ds.length ∧
      (P ++ rlRun N st clock ds).Sorted (· ≤ ·) ∧
      GapN N (P ++ rlRun N st clock ds) := by
  intro ds
  induction ds with
  | nil =>
    intro P st clock hInv _
    refine ⟨rfl, ?_, ?_⟩
    · simpa [rlRun] using hInv.1
    · simpa [rlRun] using hInv.2.2.2.2.2
  | cons d ds ih =>
    intro P st clock hInv hds
    obtain ⟨hInv', hclk⟩ := rlStep_inv N hN P st clock d hInv (hds d (by simp))
    have ihh := ih (P ++ [(rlStep N st (clock + d)).2.1]) (rlStep N st (clock + d)).1
      (rlStep N st (clock + d)).2.1 hInv' (fun x hx => hds x (by simp [hx]))
    rw [rlRun]
    refine ⟨by simpa using ihh.1, ?_, ?_⟩
    · have h2 := ihh.2.1
      rwa [List.append_assoc, List.singleton_append] at h2
    · have h2 := ihh.2.2
      rwa [List.append_assoc, List.singleton_append] at h2

/-- A sorted admission list with the N-apart gap property has at most `N`
entries in any trailing 60-second window `(T - 60, T]`. -/
theorem window_count_le (N : ℕ) (hN : 0 < N) :
    ∀ A : List ℚ, A.Sorted (· ≤ ·) → GapN N A → ∀ T : ℚ,
      (A.filter (fun a => decide (T - a < 60 ∧ a ≤ T))).length ≤ N := by
  intro A
  induction A with
  | nil => intro _ _ T; simp
  | cons x xs ih =>
    intro hs hgap T
    have hs' : xs.Sorted (· ≤ ·) := (List.pairwise_cons.mp hs).2
    have hgap' : GapN N xs := by
      intro i hi
      have h2 := hgap (i + 1) (by simp; omega)
      have he : i + 1 + N = (i + N) + 1 := by omega
      rw [he] at h2
      simpa using h2
    rw [List.filter_cons]
    by_cases hpx : T - x < 60 ∧ x ≤ T
    · rw [if_pos (by simpa using hpx)]
      have hbound : (xs.filter (fun a => decide (T - a < 60 ∧ a ≤ T))).length ≤ N - 1 := by
        have hdropN : ∀ a ∈ xs.drop (N - 1), ¬ (T - a < 60 ∧ a ≤ T) := by
          intro a ha
          have hlen : N - 1 < xs.length := by
            by_contra hc
            push_neg at hc
            rw [List.drop_eq_nil_iff.mpr hc] at ha
            simp at ha
          have hg0 := hgap 0 (by simp; omega)
          have hgx : x + 60 ≤ xs.getD (N - 1) 0 := by
            have hNe : N = (N - 1) + 1 := by omega
            rw [Nat.zero_add] at hg0
            rw [hNe] at hg0
            simpa using hg0
          have hle := sorted_le_of_mem_drop xs hs' (N - 1) hlen a ha
          rintro ⟨h1, h2⟩
          have hxw := hpx.1
          linarith
        have hsplit := List.take_append_drop (N - 1) xs
        have hnil : ((xs.drop (N - 1)).filter
            (fun a => decide (T - a < 60 ∧ a ≤ T))) = [] := by
          rw [List.filter_eq_nil_iff]
          intro a ha
          simpa using hdropN a ha
        have htake : ((xs.take (N - 1)).filter
            (fun a => decide (T - a < 60 ∧ a ≤ T))).length ≤ N - 1 :=
          le_trans (List.length_filter_le _ _) (by simp)
        calc (xs.filter (fun a => decide (T - a < 60 ∧ a ≤ T))).length
            = ((xs.take (N - 1) ++ xs.drop (N - 1)).filter
                (fun a => decide (T - a < 60 ∧ a ≤ T))).length := by rw [hsplit]
          _ = ((xs.take (N - 1)).filter (fun a => decide (T - a < 60 ∧ a ≤ T))).length +
              ((xs.drop (N - 1)).filter (fun a => decide (T - a < 60 ∧ a ≤ T))).length := by
              rw [List.filter_append, List.length_append]
          _ ≤ N - 1 := by rw [hnil]; simpa using htake
      simp only [List.length_cons]
      omega
    · rw [if_neg (by simpa using hpx)]
      exact ih hs' hgap' T

/-- C2: starting from an empty window, with nonnegative inter-call lapses,
the limiter returns one admission per reservation (every reservation
returns); the admissions are spaced so that any `N + 1` consecutive ones span
at least 60 seconds, hence no trailing 60-second window `(T - 60, T]` holds
more than `N = API_CALLS_PER_MINUTE` (default 10) admissions; and whenever
the pruned window is at the ceiling the computed suspension is exactly
`(oldest_remaining_timestamp + 60) - now`, which is positive. -/
theorem c2_rate_limiter :
    API_CALLS_PER_MINUTE = 10 ∧
    (∀ (N : ℕ) (t0 : ℚ) (ds : List ℚ), 0 < N → (∀ x ∈ ds, 0 ≤ x) →
      (rlRun N [] t0 ds).length = ds.length ∧
      GapN N (rlRun N [] t0 ds) ∧
      (∀ T : ℚ, ((rlRun N [] t0 ds).filter
        (fun a => decide (T - a < 60 ∧ a ≤ T))).length ≤ N)) ∧
    (∀ (N : ℕ) (st : List ℚ) (now : ℚ), 0 < N →
      N ≤ (st.filter (fun t => decide (now - t < 60))).length →
      (rlStep N st now).2.2 =
        (st.filter (fun t => decide (now - t < 60))).headD 0 + 60 - now ∧
      0 < (rlStep N st now).2.2) := by
  refine ⟨rfl, ?_, ?_⟩
  · intro N t0 ds hN hds
    have hInv0 : RLInv N [] [] t0 := by
      refine ⟨List.sorted_nil, by simp, ⟨0, by simp⟩, by simp, ?_, ?_⟩
      · intro h; simp at h
      · intro i hi; simp at hi
    have hrun := rlRun_inv N hN ds [] [] t0 hInv0 hds
    rw [List.nil_append] at hrun
    exact ⟨hrun.1, hrun.2.2, fun T => window_count_le N hN _ hrun.2.1 hrun.2.2 T⟩
  · intro N st now hN hceil
    have hne : st.filter (fun t => decide (now - t < 60)) ≠ [] := by
      intro h0; rw [h0] at hceil; simp at hceil; omega
    have hmem := headD_mem _ hne
    have hlt : now - (st.filter (fun t => decide (now - t < 60))).headD 0 < 60 :=
      of_decide_eq_true (List.mem_filter.mp hmem).2
    rw [rlStep_ceil N hN st now hceil]
    exact ⟨rfl, by dsimp only; linarith⟩

/-- C2 witness: two back-to-back calls at a ceiling of one per minute: both
reservations return, and the window `(0, 60]` holds at most one admission. -/
theorem c2_witness :
    (rlRun 1 [] (0 : ℚ) [0, 0]).length = 2 ∧
    ((rlRun 1 [] (0 : ℚ) [0, 0]).filter
      (fun a => decide ((60 : ℚ) - a < 60 ∧ a ≤ 60))).length ≤ 1 := by
  have h := c2_rate_limiter.2.1 1 0 [0, 0] Nat.one_pos (by simp)
  exact ⟨by simpa using h.1, h.2.2 60⟩

end NLTTS
